import Mathlib

/-!
Verification of the core of the `iptv-player-msx` repository: the M3U/EXTINF
playlist tokenizer (`plugins/js/m3u-parser.js`), the subtitle manager
(search aggregation, SRT→VTT conversion, auto-load), and the IP server
channel loader (Xtream / M3U probing with fallback).

Modelling conventions:
* JavaScript strings are modelled as `List Char` (`Str`).
* Network I/O (`fetch`) and the storage singleton (`IPTVStorage`) are
  modelled as explicit environment records passed to the operations.
* JavaScript exceptions / rejected promises are modelled with `Except`.
-/

/-! ## Model definitions (translated from the source) -/

abbrev Str := List Char

/-- JS `String.prototype.trim()`: remove whitespace from both ends. -/
def jsTrim (s : Str) : Str :=
  ((s.dropWhile Char.isWhitespace).reverse.dropWhile Char.isWhitespace).reverse

/-- JS `String.prototype.split(sep)` for a one-character separator:
splits at every occurrence, keeping empty pieces. -/
def jsSplit (sep : Char) : Str → List Str
  | [] => [[]]
  | c :: rest =>
    if c = sep then [] :: jsSplit sep rest
    else
      match jsSplit sep rest with
      | [] => [[c]]
      | r :: rs => (c :: r) :: rs

/-- JS `s.startsWith(pat)`. -/
def jsStartsWith (s pat : Str) : Bool := pat.isPrefixOf s

/-- JS `s.indexOf(sub) !== -1` / `s.includes(sub)`. -/
def jsIncludes (s sub : Str) : Bool := decide (sub <:+: s)

/-- Normalized channel record.  The m3u parser produces the fields
`name`/`logo`/`category`/`url`/`tvgId`/`tvgName`; the Xtream loader
produces `name`/`url`/`logo`/`category`/`epgChannelId`/`streamId`.
In JS both are plain objects; here unused fields stay `[]`. -/
structure Channel where
  name : Str
  logo : Str
  category : Str
  url : Str
  tvgId : Str
  tvgName : Str
  epgChannelId : Str
  streamId : Str
deriving DecidableEq, Repr

/-- The empty draft channel created at the top of `parseExtInf`. -/
def emptyChannel : Channel :=
  { name := [], logo := [], category := "Uncategorized".toList, url := []
    tvgId := [], tvgName := [], epgChannelId := [], streamId := [] }

/-- Character class `[a-z-]` of the attribute regex with the `i` flag:
ASCII letters (either case) and `-`. -/
def attrKeyChar (c : Char) : Bool :=
  (decide ('a' ≤ c) && decide (c ≤ 'z')) || (decide ('A' ≤ c) && decide (c ≤ 'Z')) || (c == '-')

/-- One attempted match of the regex `([a-z-]+)="([^"]*)"` anchored at the
start of `l`: a non-empty run of key characters, then `="`, then the value
up to the next quote, then the closing quote.  Returns the key, the value
and the remainder of the input after the match. -/
def attrMatchAt (l : Str) : Option (Str × Str × Str) :=
  let key := l.takeWhile attrKeyChar
  if key.isEmpty then none
  else
    match l.drop key.length with
    | '=' :: '"' :: rest =>
      let value := rest.takeWhile (fun c => !(c == '"'))
      match rest.drop value.length with
      | '"' :: rem => some (key, value, rem)
      | _ => none
    | _ => none

/-- Global scan of the attribute regex over the line, left to right, the
way `exec` with the `g` flag iterates: try a match at the current
position; on success continue after the consumed text, otherwise advance
one character.  `fuel` bounds the recursion; `scanAttrs` supplies
`l.length`, which is enough because every step consumes at least one
character. -/
def scanAttrsF : Nat → Str → List (Str × Str)
  | 0, _ => []
  | _ + 1, [] => []
  | fuel + 1, c :: rest =>
    match attrMatchAt (c :: rest) with
    | some (key, value, rem) => (key, value) :: scanAttrsF fuel rem
    | none => scanAttrsF fuel rest

/-- All matches of `([a-z-]+)="([^"]*)"` in the line, in order. -/
def scanAttrs (l : Str) : List (Str × Str) := scanAttrsF l.length l

/-- JS `toLowerCase` (character-wise). -/
def lowerStr (s : Str) : Str := s.map Char.toLower

/-- The `switch` in `parseExtInf` applied to one `key="value"` match. -/
def applyAttr (ch : Channel) (kv : Str × Str) : Channel :=
  let key := lowerStr kv.1
  if key = "tvg-id".toList then { ch with tvgId := kv.2 }
  else if key = "tvg-name".toList then { ch with tvgName := kv.2 }
  else if key = "tvg-logo".toList then { ch with logo := kv.2 }
  else if key = "group-title".toList then { ch with category := kv.2 }
  else ch

/-- Model of `line.substring(line.lastIndexOf(',') + 1)` when a comma exists. -/
def afterLastComma (l : Str) : Option Str :=
  if ',' ∈ l then some ((l.reverse.takeWhile (fun c => !(c == ','))).reverse) else none

/-- Source `M3UParser.parseExtInf`: extract recognized attributes, then the
display name after the last comma (trimmed), falling back to `tvg-name`
when the name is empty. -/
def parseExtInf (line : Str) : Channel :=
  let ch := (scanAttrs line).foldl applyAttr emptyChannel
  let ch :=
    match afterLastComma line with
    | some s => { ch with name := jsTrim s }
    | none => ch
  if ch.name = [] ∧ ch.tvgName ≠ [] then { ch with name := ch.tvgName } else ch

/-- One iteration of the `for` loop in `M3UParser.parse`: the state is
the emitted channels plus the pending (`currentChannel`) draft. -/
def parseStep (st : List Channel × Option Channel) (rawLine : Str) :
    List Channel × Option Channel :=
  let line := jsTrim rawLine
  if line.isEmpty || jsStartsWith line "#EXTM3U".toList then st
  else if jsStartsWith line "#EXTINF:".toList then (st.1, some (parseExtInf line))
  else if jsStartsWith line "#EXTGRP:".toList then
    match st.2 with
    | some ch => (st.1, some { ch with category := jsTrim (line.drop 8) })
    | none => st
  else if jsStartsWith line ['#'] then st
  else
    match st.2 with
    | some ch => (st.1 ++ [{ ch with url := line }], none)
    | none => st

/-- Source `M3UParser.parse` on a pre-split list of raw lines. -/
def parseLines (lines : List Str) : List Channel :=
  (lines.foldl parseStep ([], none)).1

/-- Source `M3UParser.parse`: split on newlines and run the line loop. -/
def parse (content : Str) : List Channel := parseLines (jsSplit '\n' content)

/-- Source `M3UParser.validate`: non-empty content containing `#EXTM3U` or
`#EXTINF`. -/
def validate (content : Str) : Bool :=
  if content.isEmpty then false
  else jsIncludes content "#EXTM3U".toList || jsIncludes content "#EXTINF".toList

/-- Building block of a well-formed playlist: a comment line, or an
`#EXTINF:` directive immediately followed by its URL line. -/
inductive M3UItem where
  | comment (c : Str)
  | pair (e u : Str)

def itemLines : M3UItem → List Str
  | .comment c => [c]
  | .pair e u => [e, u]

/-- Well-formedness: a comment is blank or a `#`-line that is not an
`#EXTINF:` directive; a pair is an `#EXTINF:` directive plus a non-empty
non-`#` URL line (all judged after trimming, as the parser does). -/
def goodItem : M3UItem → Prop
  | .comment c => jsTrim c = [] ∨
      (jsStartsWith (jsTrim c) ['#'] = true ∧
        jsStartsWith (jsTrim c) ("#EXTINF:".toList) = false)
  | .pair e u => jsStartsWith (jsTrim e) ("#EXTINF:".toList) = true ∧
      jsTrim u ≠ [] ∧ jsStartsWith (jsTrim u) ['#'] = false

instance : (it : M3UItem) → Decidable (goodItem it)
  | .comment c => by unfold goodItem; infer_instance
  | .pair e u => by unfold goodItem; infer_instance

def itemUrl : M3UItem → Option Str
  | .comment _ => none
  | .pair _ u => some (jsTrim u)

/-- The channels the parser emits for one item. -/
def emitItem : M3UItem → List Channel
  | .comment _ => []
  | .pair e u => [{ parseExtInf (jsTrim e) with url := jsTrim u }]

/-- Character at position `i` is a digit (`\d` of the regex); positions
past the end match nothing. -/
def digB (l : Str) (i : Nat) : Bool := ((l.get? i).map Char.isDigit).getD false

/-- Character at position `i` is exactly `c`. -/
def chB (l : Str) (i : Nat) (c : Char) : Bool := l.get? i == some c

/-- The fixed-shape regex `\d\d:\d\d:\d\d<sep>\d\d\d` matched against the
first 12 characters of `l` (`sep` is `,` in the source pattern and `.` in
the rewritten text). -/
def ts0 (sep : Char) (l : Str) : Bool :=
  digB l 0 && digB l 1 && chB l 2 ':' && digB l 3 && digB l 4 && chB l 5 ':' &&
  digB l 6 && digB l 7 && chB l 8 sep && digB l 9 && digB l 10 && digB l 11

/-- Occurrence of the timestamp pattern at position `p` of `l`. -/
def tsAt (sep : Char) (l : Str) (p : Nat) : Bool := ts0 sep (l.drop p)

/-- Number of positions of `l` at which the timestamp pattern occurs. -/
def countTs (sep : Char) (l : Str) : Nat := (List.range l.length).countP (tsAt sep l)

/-- One pass of the global regex replace in `convertSRTtoVTT`: scan left
to right; at a match, rewrite the separator comma to a dot and continue
after the 12 matched characters; otherwise copy one character and move
on — exactly how `String.replace` with a `g`-flagged regex proceeds.
`fuel` decreases once per step; `l.length` units suffice because each
step consumes at least one character. -/
def srtReplaceF : Nat → Str → Str
  | 0, l => l
  | _ + 1, [] => []
  | fuel + 1, a :: b :: c :: d :: e :: f :: g :: h :: s :: i :: j :: k :: rest =>
    if ts0 ',' (a :: b :: c :: d :: e :: f :: g :: h :: s :: i :: j :: k :: rest) then
      a :: b :: c :: d :: e :: f :: g :: h :: '.' :: i :: j :: k :: srtReplaceF fuel rest
    else a :: srtReplaceF fuel (b :: c :: d :: e :: f :: g :: h :: s :: i :: j :: k :: rest)
  | _ + 1, l => l

/-- Model of `srtContent.replace(timestamp-regex-g, dollar1.dollar2)`. -/
def srtReplaceTimestamps (l : Str) : Str := srtReplaceF l.length l

/-- Source `SubtitleManager.convertSRTtoVTT`: prepend the fixed `WEBVTT` header
and rewrite every matched `HH:MM:SS,mmm` to `HH:MM:SS.mmm`. -/
def convertSRTtoVTT (srtContent : Str) : Str :=
  "WEBVTT\n\n".toList ++ srtReplaceTimestamps srtContent

/-- Subtitle server configuration (the parts the control flow reads).
The `serverType` dispatch and per-type HTTP/JSON handling inside
`searchOnServer` are network-bound and are abstracted behind the
`searchOn` oracle passed to `searchSubtitles`. -/
structure SubServer where
  name : Str
  languages : List Str
  autoLoad : Bool
deriving DecidableEq

/-- A search-result candidate, with the fields the auto-load path reads
(`format` drives the SRT→VTT conversion; the rest are payload). -/
structure SubCandidate where
  name : Str
  language : Str
  url : Str
  format : Str
deriving DecidableEq

/-- A persisted subtitle (`saveSubtitle` object shape). -/
structure SavedSubtitle where
  channelId : Nat
  language : Str
  content : Str
  format : Str
  savedAt : Str
deriving DecidableEq

/-- The `for` loop of `SubtitleManager.searchSubtitles`: skip servers not
listing the language; `try` the per-server search, concatenating its
results; a thrown error is caught (logged) and the loop continues. -/
def searchLoop (searchOn : SubServer → Str → Str → Except Str (List SubCandidate))
    (query language : Str) :
    List SubServer → List SubCandidate → List SubCandidate
  | [], acc => acc
  | server :: rest, acc =>
    if language ∈ server.languages then
      match searchOn server query language with
      | .ok results => searchLoop searchOn query language rest (acc ++ results)
      | .error _ => searchLoop searchOn query language rest acc
    else searchLoop searchOn query language rest acc

/-- Source `SubtitleManager.searchSubtitles`: hard error when no servers are
configured, otherwise the resilient aggregation loop. -/
def searchSubtitles (searchOn : SubServer → Str → Str → Except Str (List SubCandidate))
    (servers : List SubServer) (query language : Str) :
    Except Str (List SubCandidate) :=
  if servers.length = 0 then .error "No subtitle servers configured".toList
  else .ok (searchLoop searchOn query language servers [])

/-- Environment of the subtitle manager: the storage singleton
(`getSubtitleServers` / `getChannelSubtitle`), the per-server search and
download network oracles, and the clock used by `saveSubtitle`. -/
structure SubEnv where
  servers : List SubServer
  searchOn : SubServer → Str → Str → Except Str (List SubCandidate)
  download : SubCandidate → Except Str Str
  saved : Nat → Str → Option SavedSubtitle
  now : Str

/-- Source `SubtitleManager.getSavedSubtitle` (storage lookup). -/
def getSavedSubtitle (env : SubEnv) (channelId : Nat) (language : Str) :
    Option SavedSubtitle :=
  env.saved channelId language

/-- Source `SubtitleManager.saveSubtitle`: builds and persists the record, and
returns it. -/
def saveSubtitle (env : SubEnv) (channelId : Nat) (language content format : Str) :
    SavedSubtitle :=
  { channelId := channelId, language := language, content := content
    format := format, savedAt := env.now }

/-- Network operations performed by the auto-load loop (for stating the
"no network call" part of the saved-subtitle short-circuit). -/
inductive NetCall where
  | search (language : Str)
  | download
deriving DecidableEq

/-- Inner language loop of `autoLoadSubtitles` for one server: check the
saved store first, then search, then download/convert/save; errors and
empty results continue with the next language.  Returns the outcome and
the trace of attempted network operations. -/
def autoLoadInner (env : SubEnv) (contentName : Str) (channelId : Nat) :
    List Str → Option SavedSubtitle × List NetCall
  | [] => (none, [])
  | lang :: langs =>
    match getSavedSubtitle env channelId lang with
    | some saved => (some saved, [])
    | none =>
      match searchSubtitles env.searchOn env.servers contentName lang with
      | .error _ =>
        let r := autoLoadInner env contentName channelId langs
        (r.1, NetCall.search lang :: r.2)
      | .ok [] =>
        let r := autoLoadInner env contentName channelId langs
        (r.1, NetCall.search lang :: r.2)
      | .ok (first :: _) =>
        match env.download first with
        | .error _ =>
          let r := autoLoadInner env contentName channelId langs
          (r.1, NetCall.search lang :: NetCall.download :: r.2)
        | .ok content =>
          let content' :=
            if first.format = "srt".toList then convertSRTtoVTT content else content
          (some (saveSubtitle env channelId lang content' "vtt".toList),
            [NetCall.search lang, NetCall.download])

/-- Outer server loop of `autoLoadSubtitles`. -/
def autoLoadOuter (env : SubEnv) (contentName : Str) (channelId : Nat) :
    List SubServer → Option SavedSubtitle × List NetCall
  | [] => (none, [])
  | server :: rest =>
    match autoLoadInner env contentName channelId server.languages with
    | (some saved, t) => (some saved, t)
    | (none, t) =>
      let r := autoLoadOuter env contentName channelId rest
      (r.1, t ++ r.2)

/-- Source `SubtitleManager.autoLoadSubtitles`: restrict to auto-load servers
(`null` when none), then run the nested loops. -/
def autoLoadSubtitles (env : SubEnv) (contentName : Str) (channelId : Nat) :
    Option SavedSubtitle × List NetCall :=
  let autoLoadServers := env.servers.filter (fun s => s.autoLoad)
  if autoLoadServers.length = 0 then (none, [])
  else autoLoadOuter env contentName channelId autoLoadServers

/-- Stream object from the Xtream "get_live_streams" JSON array; absent
JS fields are the empty string (both are falsy where the loader tests
them). `streamId` appears in string concatenation only. -/
structure XtreamStream where
  streamId : Str
  name : Str
  streamIcon : Str
  categoryName : Str
  epgChannelId : Str

/-- Parsed JSON body as the Xtream loader classifies it: a JSON array of
stream objects, or any non-array value (`null`, objects, numbers, ... —
all rejected identically by `!data || !Array.isArray(data)`). -/
inductive XtreamJson where
  | arr (streams : List XtreamStream)
  | nonArray

/-- An HTTP response: `ok`/`status`, plus the body through the two
accessors the loader uses (`json()`, which can itself fail on a
malformed body, and `text()`). -/
structure HttpResponse where
  ok : Bool
  status : Nat
  jsonBody : Except Str XtreamJson
  textBody : Str

/-- The transport boundary: `fetch` by URL; a network failure is an
`error`. -/
structure FetchEnv where
  fetch : Str → Except Str HttpResponse

/-- Model of `encodeURIComponent` as the identity embedding: the claims
under verification depend only on URLs being deterministic functions of
their inputs, not on percent-encoding. -/
def encodeURIComponent (s : Str) : Str := s

def natToStr (n : Nat) : Str := (toString n).toList

/-- Model of `serverInfo.apiPath || '/player_api.php'`: JS `||`
takes the default when the field is absent or the empty string. -/
def jsOrDefault (v : Option Str) (d : Str) : Str :=
  match v with
  | some s => if s.isEmpty then d else s
  | none => d

/-- Server descriptor for the IP loader. -/
structure ServerInfo where
  protocol : Str
  ip : Str
  port : Str
  apiPath : Option Str
  username : Str
  password : Str

/-- Source `IPServerLoader.loadXtreamChannels`: fetch the live-stream listing,
require a 2xx response and a JSON array, and map each stream to a
channel with a synthesized `/live/<user>/<pass>/<id>.ts` URL. -/
def loadXtreamChannels (env : FetchEnv) (baseUrl apiPath username password : Str) :
    Except Str (List Channel) :=
  let url := baseUrl ++ apiPath ++ "?username=".toList ++ encodeURIComponent username ++
    "&password=".toList ++ encodeURIComponent password ++ "&action=get_live_streams".toList
  match env.fetch url with
  | .error e => .error e
  | .ok response =>
    if !response.ok then
      .error ("Server returned error: ".toList ++ natToStr response.status)
    else
      match response.jsonBody with
      | .error e => .error e
      | .ok XtreamJson.nonArray => .error "Invalid response from server".toList
      | .ok (XtreamJson.arr streams) =>
        .ok (streams.map (fun stream =>
          { name := if stream.name.isEmpty then "Unknown Channel".toList else stream.name
            url := baseUrl ++ "/live/".toList ++ username ++ "/".toList ++ password ++
              "/".toList ++ stream.streamId ++ ".ts".toList
            logo := stream.streamIcon
            category :=
              if stream.categoryName.isEmpty then "Uncategorized".toList
              else stream.categoryName
            epgChannelId := stream.epgChannelId
            streamId := stream.streamId
            tvgId := [], tvgName := [] }))

/-- Source `IPServerLoader.loadM3UFromServer`: fetch the `type=m3u_plus` URL,
require a 2xx response, and tokenize the text body.  In this application
`M3UParser` is always defined, so the body goes to `M3UParser.parse`
(the `parseSimpleM3U` fallback is dead code). -/
def loadM3UFromServer (env : FetchEnv) (baseUrl apiPath username password : Str) :
    Except Str (List Channel) :=
  let url := baseUrl ++ apiPath ++ "?username=".toList ++ encodeURIComponent username ++
    "&password=".toList ++ encodeURIComponent password ++ "&type=m3u_plus".toList
  match env.fetch url with
  | .error e => .error e
  | .ok response =>
    if !response.ok then
      .error ("Server returned error: ".toList ++ natToStr response.status)
    else .ok (parse response.textBody)

/-- The `baseUrl` local of `loadChannels` / `testConnection`. -/
def baseUrlOf (serverInfo : ServerInfo) : Str :=
  serverInfo.protocol ++ "://".toList ++ serverInfo.ip ++ ":".toList ++ serverInfo.port

/-- Source `IPServerLoader.loadChannels`: hint dispatch on `apiPath`, and, with
no hint, try Xtream at the default path then fall back to the M3U
endpoint. -/
def loadChannels (env : FetchEnv) (serverInfo : ServerInfo) : Except Str (List Channel) :=
  let baseUrl := baseUrlOf serverInfo
  let apiPath := jsOrDefault serverInfo.apiPath "/player_api.php".toList
  if jsIncludes apiPath "player_api".toList then
    loadXtreamChannels env baseUrl apiPath serverInfo.username serverInfo.password
  else if jsIncludes apiPath "get.php".toList || jsIncludes apiPath ".m3u".toList then
    loadM3UFromServer env baseUrl apiPath serverInfo.username serverInfo.password
  else
    match loadXtreamChannels env baseUrl "/player_api.php".toList serverInfo.username
        serverInfo.password with
    | .ok channels => .ok channels
    | .error _ =>
      loadM3UFromServer env baseUrl "/get.php".toList serverInfo.username serverInfo.password

/-- Concrete two-provider configuration used by the witnesses: `P1` lists
`en`, `P2` lists `ar`, and the network oracle fails exactly on `P2`. -/
def serversW : List SubServer :=
  [SubServer.mk "P1".toList ["en".toList] false,
   SubServer.mk "P2".toList ["ar".toList] false]

def oracleW : SubServer → Str → Str → Except Str (List SubCandidate) :=
  fun server _ _ =>
    if server.name = "P2".toList then .error "network failure".toList
    else .ok [SubCandidate.mk "c1".toList "en".toList "http://s".toList "srt".toList]

/-- Concrete auto-load environment: one auto-load provider for `en`, a
saved subtitle for `(5, en)`, and oracles that would fail if touched. -/
def autoEnvW : SubEnv :=
  { servers := [SubServer.mk "P".toList ["en".toList] true]
    searchOn := fun _ _ _ => Except.error "unreachable".toList
    download := fun _ => Except.error "unreachable".toList
    saved := fun channelId lang =>
      if channelId = 5 ∧ lang = "en".toList then
        some (SavedSubtitle.mk 5 "en".toList "body".toList "vtt".toList "t0".toList)
      else none
    now := "t1".toList }

/-- C3 witness: a hinted server whose Xtream probe fails propagates that
error even though the M3U endpoint would succeed. -/
def loaderEnvW : FetchEnv :=
  { fetch := fun url =>
      if jsIncludes url "action=get_live_streams".toList then
        Except.error "xtream down".toList
      else
        Except.ok
          { ok := true, status := 200, jsonBody := Except.error "not json".toList
            textBody := "#EXTINF:-1,A\nhttp://a".toList } }

def hintedServerW : ServerInfo :=
  { protocol := "http".toList, ip := "h".toList, port := "80".toList
    apiPath := some "/player_api.php".toList, username := "u".toList
    password := "pw".toList }

/-- Server descriptor with an absent `apiPath`, for the C2 counterexample. -/
def absentServerW : ServerInfo :=
  { protocol := "http".toList, ip := "h".toList, port := "80".toList
    apiPath := none, username := "u".toList, password := "pw".toList }

/-- C2 witness: an unhinted (`apiPath = "/x"`) server whose Xtream probe
fails and whose M3U probe succeeds loads the M3U channels. -/
def unhintedServerW : ServerInfo :=
  { protocol := "http".toList, ip := "h".toList, port := "80".toList
    apiPath := some "/x".toList, username := "u".toList, password := "pw".toList }

/-- Distinct comma-timestamp occurrences do not overlap (each spans 12
characters). -/
def NoOverlap (l : Str) : Prop :=
  ∀ p q, tsAt ',' l p = true → tsAt ',' l q = true → p < q → p + 12 ≤ q

/-- Position `i` of `l` is the separator position of some comma-timestamp
occurrence — exactly the positions the scanner rewrites when occurrences
do not overlap. -/
def ReplPos (l : Str) (i : Nat) : Prop := ∃ q, i = q + 8 ∧ tsAt ',' l q = true

/-- Executable non-overlap check, used to discharge `NoOverlap` on
concrete inputs. -/
def noOverlapB (l : Str) : Bool :=
  (List.range l.length).all fun p =>
    !(tsAt ',' l p) ||
      (List.range l.length).all fun q =>
        !(tsAt ',' l q) || !(decide (p < q)) || decide (p + 12 ≤ q)

/-! ## Theorems -/

theorem jsStartsWith_iff {s pat : Str} : jsStartsWith s pat = true ↔ pat <+: s := by
  simp [jsStartsWith, List.isPrefixOf_iff_prefix]

theorem infix_cons_extend {l₁ l₂ : Str} (c : Char) (h : l₁ <:+: l₂) : l₁ <:+: c :: l₂ := by
  obtain ⟨s, t, rfl⟩ := h
  exact ⟨c :: s, t, rfl⟩

theorem jsTrim_infix_self (s : Str) : jsTrim s <:+: s := by
  have h1 : s.dropWhile Char.isWhitespace <:+ s := List.dropWhile_suffix _
  have h2 : (s.dropWhile Char.isWhitespace).reverse.dropWhile Char.isWhitespace <:+
      (s.dropWhile Char.isWhitespace).reverse := List.dropWhile_suffix _
  have h3 : jsTrim s <+: s.dropWhile Char.isWhitespace := by
    rw [← List.reverse_suffix]
    simpa [jsTrim] using h2
  exact List.IsInfix.trans ( List.IsPrefix.isInfix h3) ( List.IsSuffix.isInfix h1)

theorem jsSplit_structure (sep : Char) (l : Str) :
    ∃ r rs, jsSplit sep l = r :: rs ∧ r <+: l ∧ ∀ p ∈ rs, p <:+: l := by
  induction l with
  | nil => exact ⟨[], [], rfl, List.nil_prefix, by simp⟩
  | cons c rest ih =>
    obtain ⟨r, rs, heq, hpre, hmem⟩ := ih
    by_cases hc : c = sep
    · refine ⟨[], jsSplit sep rest, by simp [jsSplit, hc], List.nil_prefix, ?_⟩
      intro p hp
      rw [heq] at hp
      rcases List.mem_cons.mp hp with hp | hp
      · exact infix_cons_extend c (hp ▸ List.IsPrefix.isInfix hpre)
      · exact infix_cons_extend c (hmem p hp)
    · refine ⟨c :: r, rs, ?_, ?_, ?_⟩
      · simp [jsSplit, hc, heq]
      · simpa using hpre
      · exact fun p hp => infix_cons_extend c (hmem p hp)

theorem jsSplit_mem_infix_self {sep : Char} {l p : Str} (hp : p ∈ jsSplit sep l) : p <:+: l := by
  obtain ⟨r, rs, heq, hpre, hmem⟩ := jsSplit_structure sep l
  rw [heq] at hp
  rcases List.mem_cons.mp hp with hp | hp
  · exact hp ▸ List.IsPrefix.isInfix hpre
  · exact hmem p hp

/-- With no pending record, any line that is not an `#EXTINF:` directive
leaves the state unchanged. -/
theorem parseStep_none {chs : List Channel} {c : Str}
    (h : jsStartsWith (jsTrim c) ("#EXTINF:".toList) = false) :
    parseStep (chs, none) c = (chs, none) := by
  simp only [parseStep]
  rw [h]
  simp

/-- Blank lines and `#`-directives never change the emitted-channel list. -/
theorem parseStep_fst {chs : List Channel} {cur : Option Channel} {c : Str}
    (h : jsTrim c = [] ∨ jsStartsWith (jsTrim c) ['#'] = true) :
    (parseStep (chs, cur) c).1 = chs := by
  cases cur with
  | none =>
    simp only [parseStep]
    split
    · rfl
    · split
      · rfl
      · split
        · rfl
        · split <;> rfl
  | some ch =>
    simp only [parseStep]
    split
    · rfl
    · split
      · rfl
      · split
        · rfl
        · split
          · rfl
          · rename_i h1 h2 h3 h4
            exfalso
            rcases h with h0 | h0
            · exact h1 (by simp [h0])
            · exact h4 h0

theorem startsWith_hash_of_cons {l p : Str} (h : jsStartsWith l ('#' :: p) = true) :
    jsStartsWith l ['#'] = true := by
  rw [jsStartsWith_iff] at h ⊢
  exact List.IsPrefix.trans ⟨p, rfl⟩ h

theorem startsWith_cons_false {l p : Str} (h : jsStartsWith l ['#'] = false) :
    jsStartsWith l ('#' :: p) = false := by
  cases hb : jsStartsWith l ('#' :: p)
  · rfl
  · exact absurd (startsWith_hash_of_cons hb) (by simp [h])

theorem not_extm3u_of_extinf {l : Str} (h : jsStartsWith l ("#EXTINF:".toList) = true) :
    jsStartsWith l ("#EXTM3U".toList) = false := by
  cases hb : jsStartsWith l ("#EXTM3U".toList)
  · rfl
  · exfalso
    rw [jsStartsWith_iff] at h hb
    rcases List.prefix_or_prefix_of_prefix hb h with hp | hp
    · exact absurd hp (by decide)
    · exact absurd hp (by decide)

theorem not_empty_of_extinf {l : Str} (h : jsStartsWith l ("#EXTINF:".toList) = true) :
    l.isEmpty = false := by
  rw [jsStartsWith_iff] at h
  obtain ⟨t, rfl⟩ := h
  rfl

/-- An `#EXTINF:` line always replaces the pending record. -/
theorem parseStep_extinf {st : List Channel × Option Channel} {e : Str}
    (h : jsStartsWith (jsTrim e) ("#EXTINF:".toList) = true) :
    parseStep st e = (st.1, some (parseExtInf (jsTrim e))) := by
  simp only [parseStep]
  rw [not_empty_of_extinf h, not_extm3u_of_extinf h, h]
  simp

/-- A non-empty, non-`#` line consumed while a record is pending emits
that record with the line as its URL. -/
theorem parseStep_url {chs : List Channel} {ch : Channel} {u : Str}
    (hne : jsTrim u ≠ []) (hh : jsStartsWith (jsTrim u) ['#'] = false) :
    parseStep (chs, some ch) u = (chs ++ [{ ch with url := jsTrim u }], none) := by
  have h1 : jsStartsWith (jsTrim u) ("#EXTM3U".toList) = false := startsWith_cons_false hh
  have h2 : jsStartsWith (jsTrim u) ("#EXTINF:".toList) = false := startsWith_cons_false hh
  have h3 : jsStartsWith (jsTrim u) ("#EXTGRP:".toList) = false := startsWith_cons_false hh
  have h0 : (jsTrim u).isEmpty = false := by simp [List.isEmpty_iff, hne]
  simp only [parseStep]
  rw [h0, h1, h2, h3, hh]
  simp

theorem foldl_parseStep_item {it : M3UItem} (hgood : goodItem it) (chs : List Channel) :
    (itemLines it).foldl parseStep (chs, none) = (chs ++ emitItem it, none) := by
  cases it with
  | comment c =>
    have hni : jsStartsWith (jsTrim c) ("#EXTINF:".toList) = false := by
      rcases hgood with h0 | h0
      · rw [h0]; rfl
      · exact h0.2
    simp [itemLines, emitItem, parseStep_none hni]
  | pair e u =>
    obtain ⟨he, hu1, hu2⟩ := hgood
    simp [itemLines, emitItem, parseStep_extinf he, parseStep_url hu1 hu2]

theorem foldl_parseStep_items (items : List M3UItem)
    (hgood : ∀ it ∈ items, goodItem it) (chs : List Channel) :
    ((items.map itemLines).flatten).foldl parseStep (chs, none) =
      (chs ++ (items.map emitItem).flatten, none) := by
  induction items generalizing chs with
  | nil => simp
  | cons it rest ih =>
    simp only [List.map_cons, List.flatten_cons]
    rw [List.foldl_append, foldl_parseStep_item (hgood it (by simp)) chs,
      ih (fun x hx => hgood x (by simp [hx]))]
    simp

theorem emit_join_map_url (items : List M3UItem) :
    ((items.map emitItem).flatten).map Channel.url = items.filterMap itemUrl := by
  induction items with
  | nil => rfl
  | cons it rest ih =>
    cases it <;> simp [emitItem, itemUrl, ih]

/-- C5: for every input text whose newline-split lines form `N` well-formed
`#EXTINF:`+URL pairs interleaved with arbitrary other `#`-comment (or
blank) lines, `parse` returns exactly `N` channel records, in the order
the pairs appear (witnessed by the URL projection). -/
theorem parse_wellformed_pairs (content : Str) (items : List M3UItem)
    (hsplit : jsSplit '\n' content = (items.map itemLines).flatten)
    (hgood : ∀ it ∈ items, goodItem it) :
    (parse content).map Channel.url = items.filterMap itemUrl ∧
    (parse content).length = items.countP (fun it => (itemUrl it).isSome) := by
  have hmain : parse content = (items.map emitItem).flatten := by
    unfold parse parseLines
    rw [hsplit, foldl_parseStep_items items hgood []]
    rfl
  have hurl : (parse content).map Channel.url = items.filterMap itemUrl := by
    rw [hmain, emit_join_map_url]
  refine ⟨hurl, ?_⟩
  have hlen : (parse content).length = ((parse content).map Channel.url).length := by
    simp
  rw [hlen, hurl, List.length_filterMap_eq_countP]

/-- C5 witness: two pairs interleaved with comments parse to exactly the
two channels, in order. -/
theorem parse_wellformed_pairs_witness :
    jsSplit '\n' ("#EXTM3U\n#EXTINF:-1,A\nhttp://a\n# note\n#EXTINF:-1,B\nhttp://b".toList) =
      (([M3UItem.comment "#EXTM3U".toList,
         M3UItem.pair "#EXTINF:-1,A".toList "http://a".toList,
         M3UItem.comment "# note".toList,
         M3UItem.pair "#EXTINF:-1,B".toList "http://b".toList].map itemLines).flatten) ∧
    (parse ("#EXTM3U\n#EXTINF:-1,A\nhttp://a\n# note\n#EXTINF:-1,B\nhttp://b".toList)).map
        Channel.url =
      ([M3UItem.comment "#EXTM3U".toList,
        M3UItem.pair "#EXTINF:-1,A".toList "http://a".toList,
        M3UItem.comment "# note".toList,
        M3UItem.pair "#EXTINF:-1,B".toList "http://b".toList].filterMap itemUrl) ∧
    (parse ("#EXTM3U\n#EXTINF:-1,A\nhttp://a\n# note\n#EXTINF:-1,B\nhttp://b".toList)).length =
      ([M3UItem.comment "#EXTM3U".toList,
        M3UItem.pair "#EXTINF:-1,A".toList "http://a".toList,
        M3UItem.comment "# note".toList,
        M3UItem.pair "#EXTINF:-1,B".toList "http://b".toList].countP
          (fun it => (itemUrl it).isSome)) :=
  ⟨by decide,
   (parse_wellformed_pairs _ _ (by decide) (by decide)).1,
   (parse_wellformed_pairs _ _ (by decide) (by decide)).2⟩

theorem foldl_parseStep_no_extinf {lines : List Str}
    (h : ∀ c ∈ lines, jsStartsWith (jsTrim c) ("#EXTINF:".toList) = false)
    (chs : List Channel) : lines.foldl parseStep (chs, none) = (chs, none) := by
  induction lines with
  | nil => rfl
  | cons c rest ih =>
    rw [List.foldl_cons, parseStep_none (h c (by simp))]
    exact ih (fun x hx => h x (by simp [hx]))

theorem foldl_parseStep_fst_neutral {lines : List Str}
    (h : ∀ c ∈ lines, jsTrim c = [] ∨ jsStartsWith (jsTrim c) ['#'] = true)
    (chs : List Channel) (cur : Option Channel) :
    (lines.foldl parseStep (chs, cur)).1 = chs := by
  induction lines generalizing cur with
  | nil => rfl
  | cons c rest ih =>
    rw [List.foldl_cons]
    rcases hp : parseStep (chs, cur) c with ⟨a, b⟩
    have ha : a = chs := by
      have := @parseStep_fst chs cur c (h c (by simp))
      rw [hp] at this
      exact this
    subst ha
    exact ih (fun x hx => h x (by simp [hx])) b

/-- C6: (1) a non-empty non-`#` (URL) line arriving with no pending
`#EXTINF` record produces no output record and leaves the rest of the
parse unchanged; (2) an `#EXTINF:` directive followed only by blank and
`#` lines (never by a URL line) produces no channel.  Both are silent:
`parseLines` is total. -/
theorem parse_drops_orphans :
    (∀ (ns : List Str) (u : Str) (rest : List Str),
        (∀ c ∈ ns, jsTrim c = [] ∨ (jsStartsWith (jsTrim c) ['#'] = true ∧
            jsStartsWith (jsTrim c) ("#EXTINF:".toList) = false)) →
        jsTrim u ≠ [] → jsStartsWith (jsTrim u) ['#'] = false →
        parseLines (ns ++ u :: rest) = parseLines rest) ∧
    (∀ (pre : List Str) (e : Str) (post : List Str),
        jsStartsWith (jsTrim e) ("#EXTINF:".toList) = true →
        (∀ c ∈ post, jsTrim c = [] ∨ jsStartsWith (jsTrim c) ['#'] = true) →
        parseLines (pre ++ e :: post) = parseLines pre) := by
  constructor
  · intro ns u rest hns hu1 hu2
    have hns' : ∀ c ∈ ns, jsStartsWith (jsTrim c) ("#EXTINF:".toList) = false := by
      intro c hc
      rcases hns c hc with h0 | h0
      · rw [h0]; rfl
      · exact h0.2
    unfold parseLines
    rw [List.foldl_append, foldl_parseStep_no_extinf hns' [], List.foldl_cons,
      parseStep_none (startsWith_cons_false hu2)]
  · intro pre e post he hpost
    unfold parseLines
    rw [List.foldl_append, List.foldl_cons]
    rcases h0 : pre.foldl parseStep ([], none) with ⟨chs₀, cur₀⟩
    rw [parseStep_extinf he]
    exact foldl_parseStep_fst_neutral hpost chs₀ _

/-- C6 witness: a concrete orphan URL line and a concrete trailing
`#EXTINF` line are both dropped. -/
theorem parse_drops_orphans_witness :
    parseLines ["# hi".toList, "http://orphan".toList] = parseLines [] ∧
    parseLines ["#EXTINF:-1,A".toList, "".toList, "# tail".toList] = parseLines [] :=
  ⟨parse_drops_orphans.1 ["# hi".toList] "http://orphan".toList [] (by decide) (by decide)
      (by decide),
   parse_drops_orphans.2 [] "#EXTINF:-1,A".toList ["".toList, "# tail".toList] (by decide)
      (by decide)⟩

/-- C8: for every content string, if `parse` returns at least one channel
then `validate` returns `true`. -/
theorem validate_of_parse_nonempty (content : Str) (h : parse content ≠ []) :
    validate content = true := by
  have hex : ∃ raw ∈ jsSplit '\n' content,
      jsStartsWith (jsTrim raw) ("#EXTINF:".toList) = true := by
    by_contra hno
    push_neg at hno
    apply h
    unfold parse parseLines
    rw [foldl_parseStep_no_extinf (fun c hc => by simpa using hno c hc) []]
  obtain ⟨raw, hmem, hsw⟩ := hex
  have h1 : ("#EXTINF:".toList) <+: jsTrim raw := jsStartsWith_iff.mp hsw
  have h4 : ("#EXTINF".toList) <+: ("#EXTINF:".toList) := by decide
  have h5 : ("#EXTINF".toList) <:+: content :=
    List.IsInfix.trans ( List.IsPrefix.isInfix (h4.trans h1))
      (List.IsInfix.trans (jsTrim_infix_self raw) (jsSplit_mem_infix_self hmem))
  have hne : content ≠ [] := by
    intro hc
    subst hc
    exact h (by decide)
  unfold validate
  rw [if_neg (by simp [List.isEmpty_iff, hne])]
  simp only [jsIncludes, Bool.or_eq_true, decide_eq_true_eq]
  exact Or.inr h5

/-- C8 witness: a concrete playlist with one channel is validated. -/
theorem validate_of_parse_nonempty_witness :
    parse ("#EXTINF:-1,A\nhttp://a".toList) ≠ [] ∧
    validate ("#EXTINF:-1,A\nhttp://a".toList) = true :=
  ⟨by decide, validate_of_parse_nonempty _ (by decide)⟩

theorem searchLoop_closed
    (searchOn : SubServer → Str → Str → Except Str (List SubCandidate))
    (query language : Str) (servers : List SubServer) (acc : List SubCandidate) :
    searchLoop searchOn query language servers acc =
      acc ++ ((servers.filter (fun s => decide (language ∈ s.languages))).map
        (fun s =>
          match searchOn s query language with
          | .ok r => r
          | .error _ => [])).flatten := by
  induction servers generalizing acc with
  | nil => simp [searchLoop]
  | cons s rest ih =>
    by_cases hmem : language ∈ s.languages
    · simp only [searchLoop, if_pos hmem]
      cases hres : searchOn s query language with
      | ok r =>
        dsimp only
        rw [ih (acc ++ r)]
        simp [List.filter_cons, hmem, hres, List.append_assoc]
      | error e =>
        dsimp only
        rw [ih acc]
        simp [List.filter_cons, hmem, hres]
    · simp only [searchLoop, if_neg hmem]
      rw [ih]
      simp [List.filter_cons, hmem]

/-- C1: with at least one configured provider, `searchSubtitles` returns
(as a non-error) the concatenation, in configured provider order, of the
result lists of exactly the providers listing the requested language; a
provider whose per-provider search throws contributes the empty list and
never aborts the aggregate, so the other providers' results survive. -/
theorem searchSubtitles_aggregate
    (searchOn : SubServer → Str → Str → Except Str (List SubCandidate))
    (servers : List SubServer) (query language : Str) (hne : servers ≠ []) :
    searchSubtitles searchOn servers query language =
      .ok (((servers.filter (fun s => decide (language ∈ s.languages))).map
        (fun s =>
          match searchOn s query language with
          | .ok r => r
          | .error _ => [])).flatten) := by
  unfold searchSubtitles
  rw [if_neg (fun h => hne (List.length_eq_zero.mp h)), searchLoop_closed]
  rfl

/-- C1 witness: searching `ar` touches only `P2`; `P2` throws, and the
aggregate is the empty list, not an error. -/
theorem searchSubtitles_aggregate_witness :
    serversW ≠ [] ∧
    searchSubtitles oracleW serversW "movie".toList "ar".toList = Except.ok [] :=
  ⟨by decide,
   (searchSubtitles_aggregate oracleW serversW "movie".toList "ar".toList
      (by decide)).trans (by rfl)⟩

/-- C9: zero configured servers is a hard error raised to the caller,
while a non-empty configuration in which no server lists the requested
language yields the empty result set, not an error. -/
theorem searchSubtitles_error_vs_empty
    (searchOn : SubServer → Str → Str → Except Str (List SubCandidate))
    (query language : Str) :
    searchSubtitles searchOn [] query language =
      Except.error ("No subtitle servers configured".toList) ∧
    ∀ servers : List SubServer, servers ≠ [] →
      (∀ s ∈ servers, language ∉ s.languages) →
      searchSubtitles searchOn servers query language = Except.ok [] := by
  refine ⟨rfl, ?_⟩
  intro servers hne hno
  unfold searchSubtitles
  rw [if_neg (fun h => hne (List.length_eq_zero.mp h)), searchLoop_closed]
  have hfil : servers.filter (fun s => decide (language ∈ s.languages)) = [] := by
    rw [List.filter_eq_nil_iff]
    intro s hs
    simpa using hno s hs
  rw [hfil]
  rfl

/-- C9 witness: the two situations on a concrete configuration. -/
theorem searchSubtitles_error_vs_empty_witness :
    searchSubtitles oracleW [] "movie".toList "en".toList =
      Except.error ("No subtitle servers configured".toList) ∧
    searchSubtitles oracleW serversW "movie".toList "fr".toList = Except.ok [] :=
  ⟨(searchSubtitles_error_vs_empty oracleW "movie".toList "en".toList).1,
   (searchSubtitles_error_vs_empty oracleW "movie".toList "fr".toList).2 serversW
     (by decide) (by decide)⟩

/-- C4: whenever the auto-load loop examines a `(provider, language)`
pair for which a `SavedSubtitle` exists for `(channelId, language)`, that
saved entry is returned at once with an empty network trace (no search,
no download), abandoning all remaining pairs; in particular
`autoLoadSubtitles` does so when the first examined pair hits the saved
store. -/
theorem autoLoad_saved_short_circuit (env : SubEnv) (contentName : Str) (channelId : Nat) :
    (∀ (lang : Str) (langs : List Str) (saved : SavedSubtitle),
        getSavedSubtitle env channelId lang = some saved →
        autoLoadInner env contentName channelId (lang :: langs) = (some saved, [])) ∧
    (∀ (server : SubServer) (rest : List SubServer) (lang : Str) (langs : List Str)
        (saved : SavedSubtitle),
        env.servers.filter (fun s => s.autoLoad) = server :: rest →
        server.languages = lang :: langs →
        getSavedSubtitle env channelId lang = some saved →
        autoLoadSubtitles env contentName channelId = (some saved, [])) := by
  have hinner : ∀ (lang : Str) (langs : List Str) (saved : SavedSubtitle),
      getSavedSubtitle env channelId lang = some saved →
      autoLoadInner env contentName channelId (lang :: langs) = (some saved, []) := by
    intro lang langs saved hs
    unfold autoLoadInner
    rw [hs]
  refine ⟨hinner, ?_⟩
  intro server rest lang langs saved hf hl hs
  simp only [autoLoadSubtitles]
  rw [hf]
  rw [if_neg (by simp)]
  unfold autoLoadOuter
  rw [hl, hinner lang langs saved hs]

/-- C4 witness: with `SavedSubtitle(channelId=5, lang=en)` present,
auto-load returns it with an empty network trace. -/
theorem autoLoad_saved_short_circuit_witness :
    getSavedSubtitle autoEnvW 5 "en".toList =
      some (SavedSubtitle.mk 5 "en".toList "body".toList "vtt".toList "t0".toList) ∧
    autoLoadSubtitles autoEnvW "movie".toList 5 =
      (some (SavedSubtitle.mk 5 "en".toList "body".toList "vtt".toList "t0".toList), []) :=
  ⟨by decide,
   (autoLoad_saved_short_circuit autoEnvW "movie".toList 5).2
     (SubServer.mk "P".toList ["en".toList] true) [] "en".toList []
     (SavedSubtitle.mk 5 "en".toList "body".toList "vtt".toList "t0".toList)
     (by decide) (by decide) (by decide)⟩

theorem jsOrDefault_some {p d : Str} (hne : p ≠ []) : jsOrDefault (some p) d = p := by
  simp [jsOrDefault, List.isEmpty_iff, hne]

/-- C3: an explicit Xtream hint (`player_api` inside a present, non-empty
`apiPath`) makes `loadChannels` the Xtream probe alone: its value —
success or error — is the final result, and the M3U probe is never
attempted (no fallback on an explicit hint). -/
theorem loadChannels_xtream_hint (env : FetchEnv) (serverInfo : ServerInfo) (p : Str)
    (hp : serverInfo.apiPath = some p) (hne : p ≠ [])
    (hmark : jsIncludes p "player_api".toList = true) :
    loadChannels env serverInfo =
      loadXtreamChannels env (baseUrlOf serverInfo) p serverInfo.username
        serverInfo.password ∧
    ∀ e, loadXtreamChannels env (baseUrlOf serverInfo) p serverInfo.username
        serverInfo.password = Except.error e →
      loadChannels env serverInfo = Except.error e := by
  have hmain : loadChannels env serverInfo =
      loadXtreamChannels env (baseUrlOf serverInfo) p serverInfo.username
        serverInfo.password := by
    simp only [loadChannels]
    rw [hp, jsOrDefault_some hne, hmark]
    simp
  exact ⟨hmain, fun e he => hmain.trans he⟩

theorem loadChannels_xtream_hint_witness :
    hintedServerW.apiPath = some "/player_api.php".toList ∧
    jsIncludes "/player_api.php".toList "player_api".toList = true ∧
    loadChannels loaderEnvW hintedServerW = Except.error "xtream down".toList :=
  ⟨rfl, by decide,
   ((loadChannels_xtream_hint loaderEnvW hintedServerW "/player_api.php".toList rfl
      (by decide) (by decide)).1).trans (by rfl)⟩

/-- C2 counterexample: with `apiPath` absent, the code defaults the path
to `/player_api.php`, which contains the Xtream marker, so the no-hint
fallback branch is never reached: `loadChannels` returns the Xtream
error even though the M3U probe would have succeeded with one channel. -/
theorem loadChannels_absent_apiPath_no_fallback :
    absentServerW.apiPath = none ∧
    loadM3UFromServer loaderEnvW (baseUrlOf absentServerW) "/get.php".toList
        "u".toList "pw".toList = Except.ok (parse "#EXTINF:-1,A\nhttp://a".toList) ∧
    parse "#EXTINF:-1,A\nhttp://a".toList ≠ [] ∧
    loadChannels loaderEnvW absentServerW = Except.error "xtream down".toList :=
  ⟨rfl, by rfl, by decide, by rfl⟩

/-- C2 (amended): for a present, non-empty `apiPath` containing neither
marker, `loadChannels` probes Xtream at the default path first and falls
back to the M3U endpoint on any Xtream failure; the M3U outcome —
channels or error — is then final (the Xtream error is discarded). -/
theorem loadChannels_no_hint_fallback (env : FetchEnv) (serverInfo : ServerInfo) (p : Str)
    (hp : serverInfo.apiPath = some p) (hne : p ≠ [])
    (h1 : jsIncludes p "player_api".toList = false)
    (h2 : jsIncludes p "get.php".toList = false)
    (h3 : jsIncludes p ".m3u".toList = false) :
    loadChannels env serverInfo =
      match loadXtreamChannels env (baseUrlOf serverInfo) "/player_api.php".toList
          serverInfo.username serverInfo.password with
      | .ok channels => .ok channels
      | .error _ =>
        loadM3UFromServer env (baseUrlOf serverInfo) "/get.php".toList
          serverInfo.username serverInfo.password := by
  simp only [loadChannels]
  rw [hp, jsOrDefault_some hne, h1, h2, h3]
  simp

theorem loadChannels_no_hint_fallback_witness :
    unhintedServerW.apiPath = some "/x".toList ∧
    jsIncludes "/x".toList "player_api".toList = false ∧
    loadChannels loaderEnvW unhintedServerW =
      Except.ok (parse "#EXTINF:-1,A\nhttp://a".toList) :=
  ⟨rfl, by decide,
   (loadChannels_no_hint_fallback loaderEnvW unhintedServerW "/x".toList rfl (by decide)
      (by decide) (by decide) (by decide)).trans (by rfl)⟩

theorem tsAt_atoms (sep : Char) (l : Str) (p : Nat) :
    tsAt sep l p =
      (digB l p && digB l (p+1) && chB l (p+2) ':' && digB l (p+3) && digB l (p+4) &&
       chB l (p+5) ':' && digB l (p+6) && digB l (p+7) && chB l (p+8) sep &&
       digB l (p+9) && digB l (p+10) && digB l (p+11)) := by
  simp [tsAt, ts0, digB, chB, List.get?_drop]

theorem tsAt_nil (sep : Char) (q : Nat) : tsAt sep [] q = false := by
  simp [tsAt, List.drop_nil, ts0, digB]

theorem tsAt_cons_succ (sep x : Char) (t : Str) (p : Nat) :
    tsAt sep (x :: t) (p + 1) = tsAt sep t p := rfl

theorem chB_true_iff {l : Str} {i : Nat} {c : Char} : chB l i c = true ↔ l.get? i = some c := by
  simp [chB]

theorem digB_true_iff {l : Str} {i : Nat} :
    digB l i = true ↔ ∃ c, l.get? i = some c ∧ c.isDigit = true := by
  cases h : l.get? i
  · unfold digB
    rw [h]
    simp
  · unfold digB
    rw [h]
    simp

theorem tsAt_true_bound {sep : Char} {l : Str} {p : Nat} (h : tsAt sep l p = true) :
    p + 12 ≤ l.length := by
  rw [tsAt_atoms] at h
  simp only [Bool.and_eq_true] at h
  obtain ⟨c, hc, -⟩ := digB_true_iff.mp h.2
  have := ( List.get?_eq_some.mp hc).1
  omega

theorem tsAt_of_ge_length {sep : Char} {l : Str} {p : Nat} (h : l.length ≤ p) :
    tsAt sep l p = false := by
  cases hb : tsAt sep l p
  · rfl
  · have := tsAt_true_bound hb
    omega

/-- A comma occurrence and a dot occurrence never share a position (they
disagree on the separator character). -/
theorem tsAt_comma_dot_disjoint {l : Str} {p : Nat} :
    ¬(tsAt '.' l p = true ∧ tsAt ',' l p = true) := by
  rintro ⟨hd, hc⟩
  rw [tsAt_atoms] at hd hc
  simp only [Bool.and_eq_true] at hd hc
  have h1 := chB_true_iff.mp hd.1.1.1.2
  have h2 := chB_true_iff.mp hc.1.1.1.2
  rw [h1] at h2
  exact absurd (Option.some.inj h2) (by decide)

theorem length_srtReplaceF {fuel : Nat} {l : Str} (hf : l.length ≤ fuel) :
    (srtReplaceF fuel l).length = l.length := by
  induction fuel generalizing l with
  | zero => rfl
  | succ fuel ih =>
    match l with
    | [] => rfl
    | a :: b :: c :: d :: e :: f :: g :: h :: s :: i :: j :: k :: rest =>
      simp only [srtReplaceF]
      split
      · simp only [List.length_cons]
        rw [@ih rest (by simp only [List.length_cons] at hf; omega)]
      · simp only [List.length_cons]
        rw [ih (by simp only [List.length_cons] at hf ⊢; omega)]
        simp only [List.length_cons]
    | [a] | [a,b] | [a,b,c] | [a,b,c,d] | [a,b,c,d,e] | [a,b,c,d,e,f]
    | [a,b,c,d,e,f,g] | [a,b,c,d,e,f,g,h] | [a,b,c,d,e,f,g,h,s]
    | [a,b,c,d,e,f,g,h,s,i] | [a,b,c,d,e,f,g,h,s,i,j] => rfl

theorem noOverlap_tail {x : Char} {t : Str} (h : NoOverlap (x :: t)) : NoOverlap t := by
  intro p q hp hq hlt
  have := h (p + 1) (q + 1) hp hq (by omega)
  omega

theorem noOverlap_drop12 {a b c d e f g h s i j k : Char} {rest : Str}
    (hov : NoOverlap (a::b::c::d::e::f::g::h::s::i::j::k::rest)) : NoOverlap rest := by
  intro p q hp hq hlt
  have := hov (p + 12) (q + 12) hp hq (by omega)
  omega

/-- Pointwise description of the rewrite under non-overlap: separator
positions of comma occurrences become `'.'`; every other position is
copied unchanged. -/
theorem srtReplaceF_get? :
    ∀ (fuel : Nat) (l : Str), l.length ≤ fuel → NoOverlap l → ∀ i,
      (ReplPos l i → (srtReplaceF fuel l).get? i = some '.') ∧
      (¬ ReplPos l i → (srtReplaceF fuel l).get? i = l.get? i) := by
  intro fuel
  induction fuel with
  | zero =>
    intro l hl hov i
    have hnil : l = [] := List.length_eq_zero.mp (Nat.le_zero.mp hl)
    subst hnil
    refine ⟨?_, fun _ => rfl⟩
    rintro ⟨q, rfl, hq⟩
    rw [tsAt_nil] at hq
    exact absurd hq (by simp)
  | succ fuel ih =>
    intro l hl hov i
    match l with
    | [] =>
      refine ⟨?_, fun _ => rfl⟩
      rintro ⟨q, rfl, hq⟩
      rw [tsAt_nil] at hq
      exact absurd hq (by simp)
    | a :: b :: c :: d :: e :: f :: g :: h :: s :: i2 :: j2 :: k2 :: rest =>
      by_cases hc : ts0 ',' (a :: b :: c :: d :: e :: f :: g :: h :: s :: i2 :: j2 :: k2 :: rest) = true
      · have hrepl : srtReplaceF (fuel+1) (a::b::c::d::e::f::g::h::s::i2::j2::k2::rest) =
            a::b::c::d::e::f::g::h :: '.' :: i2::j2::k2::srtReplaceF fuel rest := by
          simp only [srtReplaceF, if_pos hc]
        rw [hrepl]
        have hlen : rest.length ≤ fuel := by
          simp only [List.length_cons] at hl
          omega
        have hovr : NoOverlap rest := noOverlap_drop12 hov
        have hts0 : tsAt ',' (a::b::c::d::e::f::g::h::s::i2::j2::k2::rest) 0 = true := hc
        constructor
        · rintro ⟨q, rfl, hq⟩
          rcases Nat.lt_or_ge q 12 with hq12 | hq12
          · have hq0 : q = 0 := by
              by_contra hne
              have := hov 0 q hts0 hq (by omega)
              omega
            subst hq0
            rfl
          · obtain ⟨q', rfl⟩ : ∃ q', q = q' + 12 := ⟨q - 12, by omega⟩
            have h1 : (a::b::c::d::e::f::g::h :: '.' :: i2::j2::k2::srtReplaceF fuel rest).get?
                (q' + 12 + 8) = (srtReplaceF fuel rest).get? (q' + 8) := rfl
            rw [h1]
            exact (ih rest hlen hovr (q' + 8)).1 ⟨q', rfl, hq⟩
        · intro hnp
          rcases Nat.lt_or_ge i 12 with hi | hi
          · have hi8 : i ≠ 8 := by
              rintro rfl
              exact hnp ⟨0, rfl, hts0⟩
            interval_cases i
            · rfl
            · rfl
            · rfl
            · rfl
            · rfl
            · rfl
            · rfl
            · rfl
            · exact absurd rfl hi8
            · rfl
            · rfl
            · rfl
          · obtain ⟨i', rfl⟩ : ∃ i', i = i' + 12 := ⟨i - 12, by omega⟩
            have h1 : (a::b::c::d::e::f::g::h :: '.' :: i2::j2::k2::srtReplaceF fuel rest).get?
                (i' + 12) = (srtReplaceF fuel rest).get? i' := rfl
            have h2 : (a::b::c::d::e::f::g::h::s::i2::j2::k2::rest).get? (i' + 12) =
                rest.get? i' := rfl
            rw [h1, h2]
            refine (ih rest hlen hovr i').2 ?_
            rintro ⟨q', rfl, hq⟩
            exact hnp ⟨q' + 12, by omega, hq⟩
      · have hrepl : srtReplaceF (fuel+1) (a::b::c::d::e::f::g::h::s::i2::j2::k2::rest) =
            a :: srtReplaceF fuel (b::c::d::e::f::g::h::s::i2::j2::k2::rest) := by
          simp only [srtReplaceF, if_neg hc]
        rw [hrepl]
        have hlen : (b::c::d::e::f::g::h::s::i2::j2::k2::rest).length ≤ fuel := by
          simp only [List.length_cons] at hl ⊢
          omega
        have hovt : NoOverlap (b::c::d::e::f::g::h::s::i2::j2::k2::rest) := noOverlap_tail hov
        cases i with
        | zero =>
          refine ⟨?_, fun _ => rfl⟩
          rintro ⟨q, hq8, -⟩
          omega
        | succ i' =>
          constructor
          · rintro ⟨q, hq8, hq⟩
            rcases q with _ | q''
            · exact absurd hq hc
            · have hi' : i' = q'' + 8 := by omega
              subst hi'
              have h1 : (a :: srtReplaceF fuel (b::c::d::e::f::g::h::s::i2::j2::k2::rest)).get?
                  (q'' + 8 + 1) =
                  (srtReplaceF fuel (b::c::d::e::f::g::h::s::i2::j2::k2::rest)).get?
                    (q'' + 8) := rfl
              rw [h1]
              exact (ih _ hlen hovt (q'' + 8)).1 ⟨q'', rfl, hq⟩
          · intro hnp
            have h1 : (a :: srtReplaceF fuel (b::c::d::e::f::g::h::s::i2::j2::k2::rest)).get?
                (i' + 1) =
                (srtReplaceF fuel (b::c::d::e::f::g::h::s::i2::j2::k2::rest)).get? i' := rfl
            have h2 : (a::b::c::d::e::f::g::h::s::i2::j2::k2::rest).get? (i' + 1) =
                (b::c::d::e::f::g::h::s::i2::j2::k2::rest).get? i' := rfl
            rw [h1, h2]
            refine (ih _ hlen hovt i').2 ?_
            rintro ⟨q, rfl, hq⟩
            exact hnp ⟨q + 1, by omega, hq⟩
    | [a] | [a,b] | [a,b,c] | [a,b,c,d] | [a,b,c,d,e] | [a,b,c,d,e,f]
    | [a,b,c,d,e,f,g] | [a,b,c,d,e,f,g,h] | [a,b,c,d,e,f,g,h,s]
    | [a,b,c,d,e,f,g,h,s,i2] | [a,b,c,d,e,f,g,h,s,i2,j2] =>
      refine ⟨?_, fun _ => rfl⟩
      rintro ⟨q, rfl, hq⟩
      have := tsAt_true_bound hq
      simp only [List.length_cons, List.length_nil] at this
      omega

theorem srtReplace_get? {l : Str} (hov : NoOverlap l) (i : Nat) :
    (ReplPos l i → (srtReplaceTimestamps l).get? i = some '.') ∧
    (¬ ReplPos l i → (srtReplaceTimestamps l).get? i = l.get? i) :=
  srtReplaceF_get? l.length l le_rfl hov i

theorem digB_copy {l : Str} (hov : NoOverlap l) {m : Nat} (hnp : ¬ ReplPos l m) :
    digB (srtReplaceTimestamps l) m = digB l m := by
  unfold digB
  rw [(srtReplace_get? hov m).2 hnp]

theorem chB_copy {l : Str} (hov : NoOverlap l) {m : Nat} (hnp : ¬ ReplPos l m) (c : Char) :
    chB (srtReplaceTimestamps l) m c = chB l m c := by
  unfold chB
  rw [(srtReplace_get? hov m).2 hnp]

theorem chB_dot_of_repl {l : Str} (hov : NoOverlap l) {m : Nat} (hrp : ReplPos l m) :
    chB (srtReplaceTimestamps l) m '.' = true := by
  rw [chB_true_iff]
  exact (srtReplace_get? hov m).1 hrp

theorem digB_replace {l : Str} (hov : NoOverlap l) {m : Nat}
    (hd : digB (srtReplaceTimestamps l) m = true) : ¬ ReplPos l m ∧ digB l m = true := by
  by_cases hrp : ReplPos l m
  · exfalso
    have heq := (srtReplace_get? hov m).1 hrp
    unfold digB at hd
    rw [heq] at hd
    exact absurd hd (by decide)
  · rw [digB_copy hov hrp] at hd
    exact ⟨hrp, hd⟩

theorem chB_replace {l : Str} (hov : NoOverlap l) {m : Nat} {c : Char} (hc : c ≠ '.')
    (hd : chB (srtReplaceTimestamps l) m c = true) : ¬ ReplPos l m ∧ chB l m c = true := by
  by_cases hrp : ReplPos l m
  · exfalso
    have heq := (srtReplace_get? hov m).1 hrp
    rw [chB_true_iff, heq] at hd
    exact hc (Option.some.inj hd).symm
  · rw [chB_copy hov hrp] at hd
    exact ⟨hrp, hd⟩

theorem comma_sep_at {l : Str} {q : Nat} (hq : tsAt ',' l q = true) :
    l.get? (q + 8) = some ',' := by
  rw [tsAt_atoms] at hq
  simp only [Bool.and_eq_true] at hq
  exact chB_true_iff.mp hq.1.1.1.2

/-- No comma occurrence has its separator inside the 12-character window
of another comma occurrence (except its own separator slot). -/
theorem no_repl_near {l : Str} {p j : Nat} (hov : NoOverlap l)
    (hp : tsAt ',' l p = true) (hj : j < 12) (hj8 : j ≠ 8) : ¬ ReplPos l (p + j) := by
  rintro ⟨q, hq, hmq⟩
  rcases Nat.lt_trichotomy p q with hlt | heq | hgt
  · have := hov p q hp hmq hlt
    omega
  · omega
  · have := hov q p hmq hp hgt
    omega

/-- If `l` has a comma occurrence at `p`, the rewritten text has a dot
occurrence at `p`. -/
theorem dot_out_of_comma_in {l : Str} (hov : NoOverlap l) {p : Nat}
    (hp : tsAt ',' l p = true) : tsAt '.' (srtReplaceTimestamps l) p = true := by
  have hp' := hp
  rw [tsAt_atoms] at hp'
  simp only [Bool.and_eq_true] at hp'
  obtain ⟨⟨⟨⟨⟨⟨⟨⟨⟨⟨⟨g0, g1⟩, g2⟩, g3⟩, g4⟩, g5⟩, g6⟩, g7⟩, g8⟩, g9⟩, g10⟩, g11⟩ := hp'
  rw [tsAt_atoms]
  simp only [Bool.and_eq_true]
  refine ⟨⟨⟨⟨⟨⟨⟨⟨⟨⟨⟨?_, ?_⟩, ?_⟩, ?_⟩, ?_⟩, ?_⟩, ?_⟩, ?_⟩, ?_⟩, ?_⟩, ?_⟩, ?_⟩
  · rw [show p = p + 0 from rfl, digB_copy hov (no_repl_near hov hp (by omega) (by omega))]
    simpa using g0
  · rw [digB_copy hov (no_repl_near hov hp (by omega) (by omega))]
    exact g1
  · rw [chB_copy hov (no_repl_near hov hp (by omega) (by omega))]
    exact g2
  · rw [digB_copy hov (no_repl_near hov hp (by omega) (by omega))]
    exact g3
  · rw [digB_copy hov (no_repl_near hov hp (by omega) (by omega))]
    exact g4
  · rw [chB_copy hov (no_repl_near hov hp (by omega) (by omega))]
    exact g5
  · rw [digB_copy hov (no_repl_near hov hp (by omega) (by omega))]
    exact g6
  · rw [digB_copy hov (no_repl_near hov hp (by omega) (by omega))]
    exact g7
  · exact chB_dot_of_repl hov ⟨p, rfl, hp⟩
  · rw [digB_copy hov (no_repl_near hov hp (by omega) (by omega))]
    exact g9
  · rw [digB_copy hov (no_repl_near hov hp (by omega) (by omega))]
    exact g10
  · rw [digB_copy hov (no_repl_near hov hp (by omega) (by omega))]
    exact g11

/-- No comma occurrence has its separator inside the window of a dot
occurrence: every slot of a dot window holds a digit, `:` or `.`, never
`,`. -/
theorem no_repl_in_dot_window {l : Str} {p j : Nat} (hd : tsAt '.' l p = true)
    (hj : j < 12) : ¬ ReplPos l (p + j) := by
  rintro ⟨q, hq, hmq⟩
  have hsep := comma_sep_at hmq
  rw [← hq] at hsep
  have hd' := hd
  rw [tsAt_atoms] at hd'
  simp only [Bool.and_eq_true] at hd'
  obtain ⟨⟨⟨⟨⟨⟨⟨⟨⟨⟨⟨g0, g1⟩, g2⟩, g3⟩, g4⟩, g5⟩, g6⟩, g7⟩, g8⟩, g9⟩, g10⟩, g11⟩ := hd'
  interval_cases j
  · obtain ⟨c, hc, hdg⟩ := digB_true_iff.mp g0
    rw [show p + 0 = p from rfl] at hsep
    rw [hc] at hsep
    have := Option.some.inj hsep
    subst this
    exact absurd hdg (by decide)
  · obtain ⟨c, hc, hdg⟩ := digB_true_iff.mp g1
    rw [hc] at hsep
    have := Option.some.inj hsep
    subst this
    exact absurd hdg (by decide)
  · rw [chB_true_iff.mp g2] at hsep
    exact absurd (Option.some.inj hsep) (by decide)
  · obtain ⟨c, hc, hdg⟩ := digB_true_iff.mp g3
    rw [hc] at hsep
    have := Option.some.inj hsep
    subst this
    exact absurd hdg (by decide)
  · obtain ⟨c, hc, hdg⟩ := digB_true_iff.mp g4
    rw [hc] at hsep
    have := Option.some.inj hsep
    subst this
    exact absurd hdg (by decide)
  · rw [chB_true_iff.mp g5] at hsep
    exact absurd (Option.some.inj hsep) (by decide)
  · obtain ⟨c, hc, hdg⟩ := digB_true_iff.mp g6
    rw [hc] at hsep
    have := Option.some.inj hsep
    subst this
    exact absurd hdg (by decide)
  · obtain ⟨c, hc, hdg⟩ := digB_true_iff.mp g7
    rw [hc] at hsep
    have := Option.some.inj hsep
    subst this
    exact absurd hdg (by decide)
  · rw [chB_true_iff.mp g8] at hsep
    exact absurd (Option.some.inj hsep) (by decide)
  · obtain ⟨c, hc, hdg⟩ := digB_true_iff.mp g9
    rw [hc] at hsep
    have := Option.some.inj hsep
    subst this
    exact absurd hdg (by decide)
  · obtain ⟨c, hc, hdg⟩ := digB_true_iff.mp g10
    rw [hc] at hsep
    have := Option.some.inj hsep
    subst this
    exact absurd hdg (by decide)
  · obtain ⟨c, hc, hdg⟩ := digB_true_iff.mp g11
    rw [hc] at hsep
    have := Option.some.inj hsep
    subst this
    exact absurd hdg (by decide)

/-- Dot occurrences of the input survive the rewrite. -/
theorem dot_out_of_dot_in {l : Str} (hov : NoOverlap l) {p : Nat}
    (hd : tsAt '.' l p = true) : tsAt '.' (srtReplaceTimestamps l) p = true := by
  have hd' := hd
  rw [tsAt_atoms] at hd'
  simp only [Bool.and_eq_true] at hd'
  obtain ⟨⟨⟨⟨⟨⟨⟨⟨⟨⟨⟨g0, g1⟩, g2⟩, g3⟩, g4⟩, g5⟩, g6⟩, g7⟩, g8⟩, g9⟩, g10⟩, g11⟩ := hd'
  rw [tsAt_atoms]
  simp only [Bool.and_eq_true]
  refine ⟨⟨⟨⟨⟨⟨⟨⟨⟨⟨⟨?_, ?_⟩, ?_⟩, ?_⟩, ?_⟩, ?_⟩, ?_⟩, ?_⟩, ?_⟩, ?_⟩, ?_⟩, ?_⟩
  · rw [show p = p + 0 from rfl, digB_copy hov (no_repl_in_dot_window hd (by omega))]
    simpa using g0
  · rw [digB_copy hov (no_repl_in_dot_window hd (by omega))]
    exact g1
  · rw [chB_copy hov (no_repl_in_dot_window hd (by omega))]
    exact g2
  · rw [digB_copy hov (no_repl_in_dot_window hd (by omega))]
    exact g3
  · rw [digB_copy hov (no_repl_in_dot_window hd (by omega))]
    exact g4
  · rw [chB_copy hov (no_repl_in_dot_window hd (by omega))]
    exact g5
  · rw [digB_copy hov (no_repl_in_dot_window hd (by omega))]
    exact g6
  · rw [digB_copy hov (no_repl_in_dot_window hd (by omega))]
    exact g7
  · rw [chB_copy hov (no_repl_in_dot_window hd (by omega))]
    exact g8
  · rw [digB_copy hov (no_repl_in_dot_window hd (by omega))]
    exact g9
  · rw [digB_copy hov (no_repl_in_dot_window hd (by omega))]
    exact g10
  · rw [digB_copy hov (no_repl_in_dot_window hd (by omega))]
    exact g11

/-- A dot occurrence of the rewritten text comes from a dot occurrence or
a comma occurrence of the input at the same position. -/
theorem dot_in_of_dot_out {l : Str} (hov : NoOverlap l) {p : Nat}
    (hb : tsAt '.' (srtReplaceTimestamps l) p = true) :
    tsAt '.' l p = true ∨ tsAt ',' l p = true := by
  have hb' := hb
  rw [tsAt_atoms] at hb'
  simp only [Bool.and_eq_true] at hb'
  obtain ⟨⟨⟨⟨⟨⟨⟨⟨⟨⟨⟨h0, h1⟩, h2⟩, h3⟩, h4⟩, h5⟩, h6⟩, h7⟩, h8⟩, h9⟩, h10⟩, h11⟩ := hb'
  by_cases hrp : ReplPos l (p + 8)
  · right
    obtain ⟨q, hq, hmq⟩ := hrp
    have hqp : q = p := by omega
    subst hqp
    exact hmq
  · left
    rw [tsAt_atoms]
    simp only [Bool.and_eq_true]
    refine ⟨⟨⟨⟨⟨⟨⟨⟨⟨⟨⟨(digB_replace hov h0).2, (digB_replace hov h1).2⟩,
      (chB_replace hov (by decide) h2).2⟩, (digB_replace hov h3).2⟩,
      (digB_replace hov h4).2⟩, (chB_replace hov (by decide) h5).2⟩,
      (digB_replace hov h6).2⟩, (digB_replace hov h7).2⟩, ?_⟩,
      (digB_replace hov h9).2⟩, (digB_replace hov h10).2⟩, (digB_replace hov h11).2⟩
    rw [← chB_copy hov hrp]
    exact h8

/-- The rewritten text has no comma occurrence at all. -/
theorem tsAt_comma_replace {l : Str} (hov : NoOverlap l) (p : Nat) :
    tsAt ',' (srtReplaceTimestamps l) p = false := by
  cases hb : tsAt ',' (srtReplaceTimestamps l) p
  · rfl
  · exfalso
    rw [tsAt_atoms] at hb
    simp only [Bool.and_eq_true] at hb
    obtain ⟨⟨⟨⟨⟨⟨⟨⟨⟨⟨⟨h0, h1⟩, h2⟩, h3⟩, h4⟩, h5⟩, h6⟩, h7⟩, h8⟩, h9⟩, h10⟩, h11⟩ := hb
    obtain ⟨hn8, hc8⟩ := chB_replace hov (by decide) h8
    have hl : tsAt ',' l p = true := by
      rw [tsAt_atoms]
      simp only [Bool.and_eq_true]
      exact ⟨⟨⟨⟨⟨⟨⟨⟨⟨⟨⟨(digB_replace hov h0).2, (digB_replace hov h1).2⟩,
        (chB_replace hov (by decide) h2).2⟩, (digB_replace hov h3).2⟩,
        (digB_replace hov h4).2⟩, (chB_replace hov (by decide) h5).2⟩,
        (digB_replace hov h6).2⟩, (digB_replace hov h7).2⟩, hc8⟩,
        (digB_replace hov h9).2⟩, (digB_replace hov h10).2⟩, (digB_replace hov h11).2⟩
    exact hn8 ⟨p, rfl, hl⟩

/-- Dot occurrences of the rewritten text = dot occurrences of the input
plus the rewritten comma occurrences, positionwise. -/
theorem tsAt_dot_replace {l : Str} (hov : NoOverlap l) (p : Nat) :
    tsAt '.' (srtReplaceTimestamps l) p = (tsAt '.' l p || tsAt ',' l p) := by
  cases hb : tsAt '.' (srtReplaceTimestamps l) p
  · cases hd : tsAt '.' l p
    · cases hcm : tsAt ',' l p
      · rfl
      · exact absurd (dot_out_of_comma_in hov hcm) (by simp [hb])
    · exact absurd (dot_out_of_dot_in hov hd) (by simp [hb])
  · rcases dot_in_of_dot_out hov hb with h | h
    · simp [h]
    · simp [h]

theorem countP_or_disjoint {α : Type} (L : List α) (a b : α → Bool)
    (h : ∀ x ∈ L, ¬(a x = true ∧ b x = true)) :
    L.countP (fun x => a x || b x) = L.countP a + L.countP b := by
  induction L with
  | nil => rfl
  | cons x rest ih =>
    rw [List.countP_cons, List.countP_cons, List.countP_cons,
      ih (fun y hy => h y (by simp [hy]))]
    by_cases hax : a x = true
    · have hbx : ¬ b x = true := fun hb => h x (by simp) ⟨hax, hb⟩
      simp only [hax, Bool.true_or, if_pos rfl]
      simp [hbx]
      omega
    · have hax' : a x = false := by simp [Bool.not_eq_true] at hax; exact hax
      by_cases hbx : b x = true
      · simp [hax', hbx]
        omega
      · have hbx' : b x = false := by simp [Bool.not_eq_true] at hbx; exact hbx
        simp [hax', hbx']

theorem countTs_replace_comma {l : Str} (hov : NoOverlap l) :
    countTs ',' (srtReplaceTimestamps l) = 0 := by
  unfold countTs
  rw [List.countP_eq_zero]
  intro p _
  simp [tsAt_comma_replace hov p]

theorem countTs_replace_dot {l : Str} (hov : NoOverlap l) :
    countTs '.' (srtReplaceTimestamps l) = countTs '.' l + countTs ',' l := by
  unfold countTs
  rw [show (srtReplaceTimestamps l).length = l.length from length_srtReplaceF le_rfl]
  have hcg : (List.range l.length).countP (tsAt '.' (srtReplaceTimestamps l)) =
      (List.range l.length).countP (fun p => tsAt '.' l p || tsAt ',' l p) :=
    List.countP_congr (fun p _ => by rw [tsAt_dot_replace hov p])
  rw [hcg, countP_or_disjoint _ _ _ (fun p _ => tsAt_comma_dot_disjoint)]

theorem srtReplace_id_of_no_comma :
    ∀ (fuel : Nat) (l : Str), l.length ≤ fuel → (∀ p, tsAt ',' l p = false) →
      srtReplaceF fuel l = l := by
  intro fuel
  induction fuel with
  | zero => intro l _ _; rfl
  | succ fuel ih =>
    intro l hl hno
    match l with
    | [] => rfl
    | a :: b :: c :: d :: e :: f :: g :: h :: s :: i2 :: j2 :: k2 :: rest =>
      have hc : ts0 ',' (a::b::c::d::e::f::g::h::s::i2::j2::k2::rest) = false := hno 0
      have hc' : ¬ ts0 ',' (a::b::c::d::e::f::g::h::s::i2::j2::k2::rest) = true := by
        rw [hc]
        simp
      simp only [srtReplaceF, if_neg hc']
      congr 1
      exact ih _ (by simp only [List.length_cons] at hl ⊢; omega) (fun p => hno (p + 1))
    | [a] | [a,b] | [a,b,c] | [a,b,c,d] | [a,b,c,d,e] | [a,b,c,d,e,f]
    | [a,b,c,d,e,f,g] | [a,b,c,d,e,f,g,h] | [a,b,c,d,e,f,g,h,s]
    | [a,b,c,d,e,f,g,h,s,i2] | [a,b,c,d,e,f,g,h,s,i2,j2] => rfl

theorem srtReplaceTimestamps_id {l : Str} (hno : ∀ p, tsAt ',' l p = false) :
    srtReplaceTimestamps l = l :=
  srtReplace_id_of_no_comma l.length l le_rfl hno

theorem no_comma_of_countTs_zero {l : Str} (h : countTs ',' l = 0) :
    ∀ p, tsAt ',' l p = false := by
  intro p
  rcases Nat.lt_or_ge p l.length with hp | hp
  · have := List.countP_eq_zero.mp h p (List.mem_range.mpr hp)
    simpa using this
  · exact tsAt_of_ge_length hp

theorem tsAt_header_low {m : Str} {p : Nat} (hp : p < 8) (sep : Char) :
    tsAt sep ("WEBVTT\n\n".toList ++ m) p = false := by
  rw [tsAt_atoms]
  have hd : digB ("WEBVTT\n\n".toList ++ m) p = false := by
    unfold digB
    rw [List.get?_append (by rw [show ("WEBVTT\n\n".toList).length = 8 from rfl]; omega)]
    interval_cases p <;> rfl
  rw [hd]
  simp

theorem tsAt_header_shift (sep : Char) (m : Str) (j : Nat) :
    tsAt sep ("WEBVTT\n\n".toList ++ m) (j + 8) = tsAt sep m j := rfl

theorem countTs_header (sep : Char) (m : Str) :
    countTs sep ("WEBVTT\n\n".toList ++ m) = countTs sep m := by
  unfold countTs
  rw [List.length_append, show ("WEBVTT\n\n".toList).length = 8 from rfl, List.range_add,
    List.countP_append, List.countP_map]
  have h1 : (List.range 8).countP (tsAt sep ("WEBVTT\n\n".toList ++ m)) = 0 := by
    rw [List.countP_eq_zero]
    intro p hp
    rw [tsAt_header_low (List.mem_range.mp hp)]
    simp
  rw [h1]
  simp only [Nat.zero_add]
  apply List.countP_congr
  intro j _
  show tsAt sep ("WEBVTT\n\n".toList ++ m) (8 + j) = true ↔ tsAt sep m j = true
  rw [Nat.add_comm 8 j, tsAt_header_shift]

theorem noOverlap_of_B {l : Str} (h : noOverlapB l = true) : NoOverlap l := by
  intro p q hp hq hlt
  have hpl : p < l.length := by
    have := tsAt_true_bound hp
    omega
  have hql : q < l.length := by
    have := tsAt_true_bound hq
    omega
  have h1 := List.all_eq_true.mp h p (List.mem_range.mpr hpl)
  rw [Bool.or_eq_true] at h1
  rcases h1 with h1 | h1
  · rw [hp] at h1
    exact absurd h1 (by decide)
  · have h2 := List.all_eq_true.mp h1 q (List.mem_range.mpr hql)
    rw [Bool.or_eq_true, Bool.or_eq_true] at h2
    rcases h2 with (h2 | h2) | h2
    · rw [hq] at h2
      exact absurd h2 (by decide)
    · simp at h2
      omega
    · exact of_decide_eq_true h2

/-- C7 (amended): for input whose comma-form timestamp occurrences do not
overlap one another, the output begins with the fixed `WEBVTT` header,
contains exactly `k + d` dot-form occurrences (`k` = the input's
comma-form occurrences, `d` = its pre-existing dot-form occurrences) and
zero remaining comma-form occurrences; all other content passes through
unchanged — character `i` of the input reappears as character `i + 8` of
the output whenever `i` is not the rewritten separator slot of a comma
occurrence — so in particular every already-dot-separated timestamp of
the input is still a dot-form occurrence of the output, and an input
with no comma-form occurrence at all reappears after the header entirely
unchanged. -/
theorem convertSRTtoVTT_spec (l : Str) (hov : NoOverlap l) :
    ("WEBVTT\n\n".toList <+: convertSRTtoVTT l) ∧
    countTs '.' (convertSRTtoVTT l) = countTs '.' l + countTs ',' l ∧
    countTs ',' (convertSRTtoVTT l) = 0 ∧
    (∀ i, ¬ ReplPos l i → (convertSRTtoVTT l).get? (i + 8) = l.get? i) ∧
    (∀ p, tsAt '.' l p = true → tsAt '.' (convertSRTtoVTT l) (p + 8) = true) ∧
    (countTs ',' l = 0 → convertSRTtoVTT l = "WEBVTT\n\n".toList ++ l) := by
  refine ⟨⟨srtReplaceTimestamps l, rfl⟩, ?_, ?_, ?_, ?_, ?_⟩
  · show countTs '.' ("WEBVTT\n\n".toList ++ srtReplaceTimestamps l) = _
    rw [countTs_header, countTs_replace_dot hov]
  · show countTs ',' ("WEBVTT\n\n".toList ++ srtReplaceTimestamps l) = 0
    rw [countTs_header, countTs_replace_comma hov]
  · intro i hnp
    have hsh : (convertSRTtoVTT l).get? (i + 8) = (srtReplaceTimestamps l).get? i := rfl
    rw [hsh]
    exact (srtReplace_get? hov i).2 hnp
  · intro p hp
    show tsAt '.' ("WEBVTT\n\n".toList ++ srtReplaceTimestamps l) (p + 8) = true
    rw [tsAt_header_shift]
    exact dot_out_of_dot_in hov hp
  · intro h0
    show "WEBVTT\n\n".toList ++ srtReplaceTimestamps l = _
    rw [srtReplaceTimestamps_id (no_comma_of_countTs_zero h0)]

/-- C7 counterexample: `00:00:00,000:00:00,000` contains `k = 2`
(overlapping) comma-form occurrences, yet the output contains one dot
occurrence — not 2 — and one surviving comma occurrence — not 0.  And on
`00:00:00.000` (`k = 0`, one pre-existing dot form) the output contains
one dot occurrence, not 0. -/
theorem convertSRTtoVTT_spec_cex :
    countTs ',' "00:00:00,000:00:00,000".toList = 2 ∧
    countTs '.' (convertSRTtoVTT "00:00:00,000:00:00,000".toList) = 1 ∧
    countTs ',' (convertSRTtoVTT "00:00:00,000:00:00,000".toList) = 1 ∧
    countTs ',' "00:00:00.000".toList = 0 ∧
    countTs '.' (convertSRTtoVTT "00:00:00.000".toList) = 1 := by
  refine ⟨by decide, by decide, by decide, by decide, by decide⟩

/-- C7 witness: a subtitle fragment with one (isolated) comma timestamp
and no pre-existing dot form. -/
theorem convertSRTtoVTT_spec_witness :
    noOverlapB "a 00:00:01,000 b".toList = true ∧
    ("WEBVTT\n\n".toList <+: convertSRTtoVTT "a 00:00:01,000 b".toList) ∧
    countTs '.' (convertSRTtoVTT "a 00:00:01,000 b".toList) =
      countTs '.' "a 00:00:01,000 b".toList + countTs ',' "a 00:00:01,000 b".toList ∧
    countTs ',' (convertSRTtoVTT "a 00:00:01,000 b".toList) = 0 :=
  ⟨by decide,
   (convertSRTtoVTT_spec _ (noOverlap_of_B (by decide))).1,
   (convertSRTtoVTT_spec _ (noOverlap_of_B (by decide))).2.1,
   (convertSRTtoVTT_spec _ (noOverlap_of_B (by decide))).2.2.1⟩

/-- C10 (amended): when the input's comma-form occurrences do not overlap,
the timestamp rewrite reaches a fixpoint after one application, so a
second conversion adds exactly one more header and changes nothing
else. -/
theorem convertSRTtoVTT_twice (l : Str) (hov : NoOverlap l) :
    convertSRTtoVTT (convertSRTtoVTT l) = "WEBVTT\n\n".toList ++ convertSRTtoVTT l := by
  have h0 : countTs ',' (convertSRTtoVTT l) = 0 := by
    show countTs ',' ("WEBVTT\n\n".toList ++ srtReplaceTimestamps l) = 0
    rw [countTs_header, countTs_replace_comma hov]
  show "WEBVTT\n\n".toList ++ srtReplaceTimestamps (convertSRTtoVTT l) = _
  rw [srtReplaceTimestamps_id (no_comma_of_countTs_zero h0)]

/-- C10 counterexample: on the overlapping-timestamps input the rewrite
is not at a fixpoint after one application, so the second conversion does
more than prepend a header. -/
theorem convertSRTtoVTT_twice_cex :
    convertSRTtoVTT (convertSRTtoVTT "00:00:00,000:00:00,000".toList) ≠
      "WEBVTT\n\n".toList ++ convertSRTtoVTT "00:00:00,000:00:00,000".toList := by
  decide

/-- C10 witness: on an isolated timestamp the double conversion is the
single conversion plus one more header. -/
theorem convertSRTtoVTT_twice_witness :
    noOverlapB "a 00:00:01,000 b".toList = true ∧
    convertSRTtoVTT (convertSRTtoVTT "a 00:00:01,000 b".toList) =
      "WEBVTT\n\n".toList ++ convertSRTtoVTT "a 00:00:01,000 b".toList :=
  ⟨by decide, convertSRTtoVTT_twice _ (noOverlap_of_B (by decide))⟩
